import Mathlib

/-!
Verification development for a 2D computer-graphics toolkit
(rasterization of lines and circles, line clipping against an axis-aligned
window, and affine transformations of a scene of primitives).

Coordinates are embedded as rationals (`ℚ`): the Python source computes with
ints and floats, and every algorithm here is exact field arithmetic plus
comparisons, so `ℚ` is the faithful exact-arithmetic model.  Python's
`round` (banker's rounding, round-half-to-even) is modelled by `pyRound`.
Fallible code (Python `ZeroDivisionError`) is modelled with `Except`; the
unbounded `while` loops are modelled with explicit fuel, where running out
of fuel is a distinguished outcome (`fuelOut`), never silently conflated
with the program's own results.
-/

deriving instance DecidableEq for Except

/-! ## Clipping (clipping.py) -/

def INSIDE : ℕ := 0

def LEFT : ℕ := 1

def RIGHT : ℕ := 2

def BOTTOM : ℕ := 4

def TOP : ℕ := 8

/-- `region_code(x, y, x_min, x_max, y_min, y_max)` from clipping.py:
4-bit outcode of a point with respect to the window (strict comparisons,
boundary counts as inside; `x` bit or-ed with `y` bit). -/
def region_code (x y x_min x_max y_min y_max : ℚ) : ℕ :=
  (if x < x_min then LEFT else if x > x_max then RIGHT else INSIDE) |||
  (if y < y_min then BOTTOM else if y > y_max then TOP else INSIDE)

/-- Errors a clipping run can signal: a Python `ZeroDivisionError`, or the
model's fuel running out (the source loop is unbounded). -/
inductive CohenErr : Type
  | divZero : CohenErr
  | fuelOut : CohenErr
deriving DecidableEq

/-- Result payload of both clipping functions: `(True, ((x1,y1),(x2,y2)))`
or `(False, (None, None))` in the source. -/
inductive ClipOutcome : Type
  | accepted : ℚ × ℚ → ℚ × ℚ → ClipOutcome
  | rejected : ClipOutcome
deriving DecidableEq

/-- The `while True` loop of `clipping_cohen_sutherland`, fuelled.  State:
current endpoints, their region codes and the `line_accepted` flag; the
divisions of the boundary-intersection formulas are guarded so that a zero
denominator surfaces as `CohenErr.divZero` (Python would raise
`ZeroDivisionError` there). -/
def cohenLoop (x_min x_max y_min y_max : ℚ) :
    ℕ → ℚ → ℚ → ℚ → ℚ → ℕ → ℕ → Bool → Except CohenErr ClipOutcome
  | 0, _, _, _, _, _, _, _ => .error .fuelOut
  | fuel+1, x_initial, y_initial, x_final, y_final, code1, code2, line_accepted =>
    if (code1 = 0 ∧ code2 = 0) ∨ code1 &&& code2 ≠ 0 then
      -- source: sets accept = True and breaks; the final gate then also
      -- requires line_accepted
      if line_accepted then .ok (.accepted (x_initial, y_initial) (x_final, y_final))
      else .ok .rejected
    else if code1 &&& code2 ≠ 0 then
      -- dead elif branch of the source (its condition is subsumed above):
      -- break with accept = False, hence the final reject
      .ok .rejected
    else
      let code_out := if code1 ≠ 0 then code1 else code2
      let step : Except CohenErr (ℚ × ℚ) :=
        if code_out &&& TOP ≠ 0 then
          if y_final - y_initial = 0 then .error .divZero
          else .ok (x_initial + (x_final - x_initial) * (y_max - y_initial) / (y_final - y_initial),
                    y_max)
        else if code_out &&& BOTTOM ≠ 0 then
          if y_final - y_initial = 0 then .error .divZero
          else .ok (x_initial + (x_final - x_initial) * (y_min - y_initial) / (y_final - y_initial),
                    y_min)
        else if code_out &&& RIGHT ≠ 0 then
          if x_final - x_initial = 0 then .error .divZero
          else .ok (x_max,
                    y_initial + (y_final - y_initial) * (x_max - x_initial) / (x_final - x_initial))
        else if code_out &&& LEFT ≠ 0 then
          if x_final - x_initial = 0 then .error .divZero
          else .ok (x_min,
                    y_initial + (y_final - y_initial) * (x_min - x_initial) / (x_final - x_initial))
        else .ok (0, 0)   -- source initializes x, y = 0, 0 before the branch chain
      match step with
      | .error e => .error e
      | .ok (x, y) =>
        if code_out = code1 then
          let la :=
            if (x_min ≤ x ∧ x ≤ x_max ∧ y_min ≤ y ∧ y ≤ y_max) ∨
               (x_min ≤ x_final ∧ x_final ≤ x_max ∧ y_min ≤ y_final ∧ y_final ≤ y_max)
            then true else line_accepted
          cohenLoop x_min x_max y_min y_max fuel x y x_final y_final
            (region_code x y x_min x_max y_min y_max) code2 la
        else
          let la :=
            if (x_min ≤ x_initial ∧ x_initial ≤ x_max ∧ y_min ≤ y_initial ∧ y_initial ≤ y_max) ∨
               (x_min ≤ x ∧ x ≤ x_max ∧ y_min ≤ y ∧ y ≤ y_max)
            then true else line_accepted
          cohenLoop x_min x_max y_min y_max fuel x_initial y_initial x y
            code1 (region_code x y x_min x_max y_min y_max) la

/-- `clipping_cohen_sutherland` from clipping.py (drawing side effects on the
canvas dropped; the window corners `c_initial = (x_min, y_min)` and
`c_final = (x_max, y_max)` are passed as four scalars). -/
def clipping_cohen_sutherland (fuel : ℕ)
    (x_initial y_initial x_final y_final x_min y_min x_max y_max : ℚ) :
    Except CohenErr ClipOutcome :=
  cohenLoop x_min x_max y_min y_max fuel x_initial y_initial x_final y_final
    (region_code x_initial y_initial x_min x_max y_min y_max)
    (region_code x_final y_final x_min x_max y_min y_max)
    false

/-- Entries appended to `negarr` after its initial `[0]` in
`clipping_liang_barsky` (Python appends at most one entry per axis,
depending on the signs of `p1` and `p3`; `p2 = -p1`, `p4 = -p3`). -/
def lb_negRest (p1 p3 q1 q2 q3 q4 : ℚ) : List ℚ :=
  (if p1 ≠ 0 then [if p1 < 0 then q1 / p1 else q2 / (-p1)] else []) ++
  (if p3 ≠ 0 then [if p3 < 0 then q3 / p3 else q4 / (-p3)] else [])

/-- Entries appended to `posarr` after its initial `[1]` in
`clipping_liang_barsky`. -/
def lb_posRest (p1 p3 q1 q2 q3 q4 : ℚ) : List ℚ :=
  (if p1 ≠ 0 then [if p1 < 0 then q2 / (-p1) else q1 / p1] else []) ++
  (if p3 ≠ 0 then [if p3 < 0 then q4 / (-p3) else q3 / p3] else [])

/-- `clipping_liang_barsky` from clipping.py (canvas drawing dropped).
Python's `max(negarr)` with `negarr = [0] ++ rest` is the left fold of
binary `max` with initial value `0` over `rest`, and dually for
`min(posarr)` with initial `[1]`. -/
def clipping_liang_barsky (x1 y1 x2 y2 xmin ymin xmax ymax : ℚ) : ClipOutcome :=
  let p1 := -(x2 - x1)
  let p2 := -p1
  let p3 := -(y2 - y1)
  let p4 := -p3
  let q1 := x1 - xmin
  let q2 := xmax - x1
  let q3 := y1 - ymin
  let q4 := ymax - y1
  if (p1 = 0 ∧ q1 < 0) ∨ (p2 = 0 ∧ q2 < 0) ∨ (p3 = 0 ∧ q3 < 0) ∨ (p4 = 0 ∧ q4 < 0) then
    ClipOutcome.rejected
  else
    let rn1 := (lb_negRest p1 p3 q1 q2 q3 q4).foldl max 0
    let rn2 := (lb_posRest p1 p3 q1 q2 q3 q4).foldl min 1
    if rn1 > rn2 then ClipOutcome.rejected
    else ClipOutcome.accepted (x1 + p2 * rn1, y1 + p4 * rn1) (x1 + p2 * rn2, y1 + p4 * rn2)

/-! ## Rasterization (rasterization.py) -/

/-- Python's built-in `round`: round half to even (banker's rounding). -/
def pyRound (q : ℚ) : ℤ :=
  let f := ⌊q⌋
  let r := q - f
  if r < 1/2 then f
  else if 1/2 < r then f + 1
  else if f % 2 = 0 then f else f + 1

/-- The accumulation loop of `draw_DDA_line`: `k` further pixels obtained by
repeatedly adding the real-valued increments and rounding for emission. -/
def ddaSteps : ℕ → ℚ → ℚ → ℚ → ℚ → List (ℤ × ℤ)
  | 0, _, _, _, _ => []
  | k+1, x, y, x_incr, y_incr =>
    (pyRound (x + x_incr), pyRound (y + y_incr)) ::
      ddaSteps k (x + x_incr) (y + y_incr) x_incr y_incr

/-- `draw_DDA_line` from rasterization.py, returning the emitted pixel list.
When `steps = 0` (coincident endpoints) the source evaluates `dx / steps`,
a Python `ZeroDivisionError`, modelled as `.error ()`. -/
def draw_DDA_line (x1 y1 x2 y2 : ℚ) : Except Unit (List (ℤ × ℤ)) :=
  let dx := x2 - x1
  let dy := y2 - y1
  let steps := if |dx| > |dy| then |dx| else |dy|
  if steps = 0 then .error ()
  else
    let x_incr := dx / steps
    let y_incr := dy / steps
    .ok ((pyRound x1, pyRound y1) :: ddaSteps (pyRound steps).toNat x1 y1 x_incr y_incr)

/-- The x-driven (`dx > dy`) loop of `draw_Bresenham_line`. -/
def bresLoopX : ℕ → ℤ → ℤ → ℤ → ℤ → ℤ → ℤ → ℤ → List (ℤ × ℤ)
  | 0, _, _, _, _, _, _, _ => []
  | n+1, x, y, d, incE, incNE, incrx, incry =>
    if d ≤ 0 then
      (x + incrx, y) :: bresLoopX n (x + incrx) y (d + incE) incE incNE incrx incry
    else
      (x + incrx, y + incry) ::
        bresLoopX n (x + incrx) (y + incry) (d + incNE) incE incNE incrx incry

/-- The y-driven (`dx ≤ dy`) loop of `draw_Bresenham_line`. -/
def bresLoopY : ℕ → ℤ → ℤ → ℤ → ℤ → ℤ → ℤ → ℤ → List (ℤ × ℤ)
  | 0, _, _, _, _, _, _, _ => []
  | n+1, x, y, d, incN, incNE, incrx, incry =>
    if d ≤ 0 then
      (x, y + incry) :: bresLoopY n x (y + incry) (d + incN) incN incNE incrx incry
    else
      (x + incrx, y + incry) ::
        bresLoopY n (x + incrx) (y + incry) (d + incNE) incN incNE incrx incry

/-- `draw_Bresenham_line` from rasterization.py, returning the emitted
pixel list (initial pixel, then one pixel per loop iteration). -/
def draw_Bresenham_line (x_initial y_initial x_final y_final : ℤ) : List (ℤ × ℤ) :=
  let dx := |x_final - x_initial|
  let dy := |y_final - y_initial|
  let incrx : ℤ := if x_initial < x_final then 1 else -1
  let incry : ℤ := if y_initial < y_final then 1 else -1
  (x_initial, y_initial) ::
    (if dx > dy then
      bresLoopX dx.toNat x_initial y_initial (2*dy - dx) (2*dy) (2*(dy - dx)) incrx incry
    else
      bresLoopY dy.toNat x_initial y_initial (2*dx - dy) (2*dx) (2*(dx - dy)) incrx incry)

/-- `plot_circumference_points` from rasterization.py: the eight mirrored
pixels of one octant point, in source order. -/
def plot_circumference_points (xc x yc y : ℚ) : List (ℚ × ℚ) :=
  [(xc - x, yc + y), (xc + x, yc - y), (xc + x, yc + y), (xc - x, yc - y),
   (xc + y, yc + x), (xc - y, yc + x), (xc + y, yc - x), (xc - y, yc - x)]

/-- Fuel exhaustion marker for the circle loop model. -/
inductive CircErr : Type
  | fuelOut : CircErr
deriving DecidableEq

/-- The `while x < y` loop of `draw_Bresenham_circle`, fuelled; returns the
number of iterations performed and the accumulated plotted pixels. -/
def circleLoop (xc yc : ℚ) :
    ℕ → ℚ → ℚ → ℚ → ℕ → List (ℚ × ℚ) → Except CircErr (ℕ × List (ℚ × ℚ))
  | 0, _, _, _, _, _ => .error .fuelOut
  | fuel+1, x, y, p, iters, acc =>
    if x < y then
      if p < 0 then
        circleLoop xc yc fuel (x + 1) y (p + 4*x + 6) (iters + 1)
          (acc ++ plot_circumference_points xc (x + 1) yc y)
      else
        circleLoop xc yc fuel (x + 1) (y - 1) (p + 4*(x - y) + 10) (iters + 1)
          (acc ++ plot_circumference_points xc (x + 1) yc (y - 1))
    else .ok (iters, acc)

/-- `draw_Bresenham_circle` from rasterization.py: initial octant plot at
`(0, r)` with decision parameter `3 - 2r`, then the fuelled loop. -/
def draw_Bresenham_circle (fuel : ℕ) (xc yc r : ℚ) : Except CircErr (ℕ × List (ℚ × ℚ)) :=
  circleLoop xc yc fuel 0 r (3 - 2*r) 0 (plot_circumference_points xc 0 yc r)

/-! ## Transformations (transformation2d.py) and the scene model (main.py) -/

/-- A call made on the canvas (the external pixel-sink): the scene-model
functions are modelled up to this call boundary. -/
inductive CanvasOp : Type
  | axes : CanvasOp
  | ddaLine : ℚ → ℚ → ℚ → ℚ → CanvasOp
  | pixel : ℚ → ℚ → CanvasOp
  | bresCircle : ℚ → ℚ → ℚ → CanvasOp
deriving DecidableEq

/-- The state of `CartesianPlane` from main.py that the scene-model claims
concern: the stored primitive lists and the current canvas content. -/
structure CartesianPlane : Type where
  lines : List ((ℚ × ℚ) × (ℚ × ℚ))
  circles : List ((ℚ × ℚ) × ℚ)
  canvas : List CanvasOp
deriving DecidableEq

/-- `translate` from transformation2d.py: clears the canvas, redraws the
axes, then draws every line and circle displaced by `(tx, ty)`.  The
stored `lines` and `circles` fields are exactly as in the source: the
function never assigns them. -/
def Transformation2d.translate (tx ty : ℚ) (cp : CartesianPlane) : CartesianPlane :=
  { cp with canvas :=
      [CanvasOp.axes] ++
      cp.lines.map (fun l =>
        CanvasOp.ddaLine (l.1.1 + tx) (l.1.2 + ty) (l.2.1 + tx) (l.2.2 + ty)) ++
      (cp.circles.map (fun c =>
        [CanvasOp.pixel (c.1.1 + tx) (c.1.2 + ty),
         CanvasOp.bresCircle (c.1.1 + tx) (c.1.2 + ty) c.2])).flatten }

/-- `CartesianPlane.translate_points` from main.py: delegates to
`translate` with the stored lists. -/
def translate_points (delta_x delta_y : ℚ) (cp : CartesianPlane) : CartesianPlane :=
  Transformation2d.translate delta_x delta_y cp

/-- `rotate` from transformation2d.py.  `c` and `s` stand for the values
`math.cos(angle_rad)` and `math.sin(angle_rad)` computed by the source;
the returned coordinates are rounded with Python's `round`. -/
def rotate (line : (ℚ × ℚ) × (ℚ × ℚ)) (c s : ℚ) : (ℤ × ℤ) × (ℤ × ℤ) :=
  let x1 := line.1.1
  let y1 := line.1.2
  let x2 := line.2.1 - x1
  let y2 := line.2.2 - y1
  let new_x2 := x2 * c - y2 * s + x1
  let new_y2 := x2 * s + y2 * c + y1
  ((pyRound x1, pyRound y1), (pyRound new_x2, pyRound new_y2))

/-- `scale_line` from transformation2d.py. -/
def scale_line (line : (ℚ × ℚ) × (ℚ × ℚ)) (scale_factor : ℚ) : (ℚ × ℚ) × (ℚ × ℚ) :=
  let x1 := line.1.1
  let y1 := line.1.2
  ((x1, y1), (x1 + (line.2.1 - x1) * scale_factor, y1 + (line.2.2 - y1) * scale_factor))

/-- `cartesian_plan_coordinates` from main.py (canvas pixel space to
centred Cartesian space; `origin` is the canvas centre). -/
def cartesian_plan_coordinates (origin : ℚ × ℚ) (x y : ℚ) : ℚ × ℚ :=
  (x - origin.1, origin.2 - y)

/-- `get_pixel_coordinates` from main.py (centred Cartesian space back to
canvas pixel space). -/
def get_pixel_coordinates (origin : ℚ × ℚ) (x y : ℚ) : ℚ × ℚ :=
  (x + origin.1, origin.2 - y)

/-- `reflect_line` from transformation2d.py: an unrecognized axis token
falls off the end of the `if`/`elif` chain, so Python returns `None`,
modelled as `Option.none`. -/
def reflect_line (line : (ℚ × ℚ) × (ℚ × ℚ)) (axis : String) (origin : ℚ × ℚ) :
    Option ((ℚ × ℚ) × (ℚ × ℚ)) :=
  let p1 := cartesian_plan_coordinates origin line.1.1 line.1.2
  let p2 := cartesian_plan_coordinates origin line.2.1 line.2.2
  if axis = "X" then
    some (get_pixel_coordinates origin p1.1 (-p1.2), get_pixel_coordinates origin p2.1 (-p2.2))
  else if axis = "Y" then
    some (get_pixel_coordinates origin (-p1.1) p1.2, get_pixel_coordinates origin (-p2.1) p2.2)
  else if axis = "XY" then
    some (get_pixel_coordinates origin (-p1.1) (-p1.2), get_pixel_coordinates origin (-p2.1) (-p2.2))
  else none

/-- `reflect_circle` from transformation2d.py: same `None` fall-through for
an unrecognized axis token. -/
def reflect_circle (circle : (ℚ × ℚ) × ℚ) (axis : String) (origin : ℚ × ℚ) :
    Option ((ℚ × ℚ) × ℚ) :=
  let ctr := cartesian_plan_coordinates origin circle.1.1 circle.1.2
  if axis = "X" then some (get_pixel_coordinates origin ctr.1 (-ctr.2), circle.2)
  else if axis = "Y" then some (get_pixel_coordinates origin (-ctr.1) ctr.2, circle.2)
  else if axis = "XY" then some (get_pixel_coordinates origin (-ctr.1) (-ctr.2), circle.2)
  else none

/-! ## Helper lemmas -/

theorem natBitFacts :
    ((0:ℕ) ||| 0 = 0) ∧ ((0:ℕ) ||| 4 = 4) ∧ ((0:ℕ) ||| 8 = 8) ∧
    ((1:ℕ) ||| 0 = 1) ∧ ((1:ℕ) ||| 4 = 5) ∧ ((1:ℕ) ||| 8 = 9) ∧
    ((2:ℕ) ||| 0 = 2) ∧ ((2:ℕ) ||| 4 = 6) ∧ ((2:ℕ) ||| 8 = 10) ∧
    ((0:ℕ) &&& 8 = 0) ∧ ((1:ℕ) &&& 8 = 0) ∧ ((2:ℕ) &&& 8 = 0) ∧ ((4:ℕ) &&& 8 = 0) ∧
    ((5:ℕ) &&& 8 = 0) ∧ ((6:ℕ) &&& 8 = 0) ∧ ((8:ℕ) &&& 8 = 8) ∧ ((9:ℕ) &&& 8 = 8) ∧
    ((10:ℕ) &&& 8 = 8) ∧
    ((0:ℕ) &&& 4 = 0) ∧ ((1:ℕ) &&& 4 = 0) ∧ ((2:ℕ) &&& 4 = 0) ∧ ((4:ℕ) &&& 4 = 4) ∧
    ((5:ℕ) &&& 4 = 4) ∧ ((6:ℕ) &&& 4 = 4) ∧ ((8:ℕ) &&& 4 = 0) ∧ ((9:ℕ) &&& 4 = 0) ∧
    ((10:ℕ) &&& 4 = 0) ∧
    ((0:ℕ) &&& 2 = 0) ∧ ((1:ℕ) &&& 2 = 0) ∧ ((2:ℕ) &&& 2 = 2) ∧ ((4:ℕ) &&& 2 = 0) ∧
    ((5:ℕ) &&& 2 = 0) ∧ ((6:ℕ) &&& 2 = 2) ∧ ((8:ℕ) &&& 2 = 0) ∧ ((9:ℕ) &&& 2 = 0) ∧
    ((10:ℕ) &&& 2 = 2) ∧
    ((0:ℕ) % 2 = 0) ∧ ((1:ℕ) % 2 = 1) ∧ ((2:ℕ) % 2 = 0) ∧ ((4:ℕ) % 2 = 0) ∧
    ((5:ℕ) % 2 = 1) ∧ ((6:ℕ) % 2 = 0) ∧ ((8:ℕ) % 2 = 0) ∧ ((9:ℕ) % 2 = 1) ∧
    ((10:ℕ) % 2 = 0) ∧
    ((0:ℕ) &&& 0 = 0) ∧ ((2:ℕ) &&& 10 = 2) ∧ ((5:ℕ) &&& 10 = 0) ∧ ((2:ℕ) &&& 0 = 0) ∧
    ((5:ℕ) &&& 0 = 0) ∧ ((0:ℕ) &&& 10 = 0) ∧ ((10:ℕ) &&& 0 = 0) := by
  decide

theorem pyRound_intCast (n : ℤ) : pyRound (n : ℚ) = n := by
  norm_num [pyRound]

/-! ## Claim theorems -/

/-- C1: the two clipping algorithms do NOT always agree.  For the line
(0,0)-(1,1), which lies entirely inside the window (-5,-5)-(5,5),
`clipping_cohen_sutherland` returns a reject (its `line_accepted` flag is
only ever set on the iterative-clipping path, so a trivially-accepted line
fails the final gate) while `clipping_liang_barsky` accepts the line
unchanged. -/
theorem cohen_liang_disagree_on_inside_line :
    clipping_cohen_sutherland 1 0 0 1 1 (-5) (-5) 5 5 = .ok .rejected ∧
    clipping_liang_barsky 0 0 1 1 (-5) (-5) 5 5 = .accepted (0, 0) (1, 1) := by
  constructor
  · norm_num [clipping_cohen_sutherland, cohenLoop, region_code, LEFT, RIGHT, BOTTOM, TOP,
      INSIDE, natBitFacts]
  · norm_num [clipping_liang_barsky, lb_negRest, lb_posRest]

/-- C2: on the degenerate line from `p` to `p`, `draw_DDA_line` evaluates
`dx / steps` with `steps = 0` — a `ZeroDivisionError` (modelled `.error ()`)
emitting no pixel — while `draw_Bresenham_line` correctly emits exactly the
single pixel `p`. -/
theorem degenerate_line_dda_divzero_bresenham_single (x y : ℤ) :
    draw_DDA_line (x : ℚ) (y : ℚ) (x : ℚ) (y : ℚ) = .error () ∧
    draw_Bresenham_line x y x y = [(x, y)] := by
  constructor
  · simp [draw_DDA_line]
  · simp [draw_Bresenham_line, bresLoopY]

/-- C3: `translate_points` leaves the stored `lines` and `circles` lists of
the scene untouched (the source only redraws translated copies; it never
swaps the stored lists), so after translating by (5,5) a scene holding the
line ((0,0),(1,1)) still stores that line, not the translated
((5,5),(6,6)). -/
theorem translate_points_leaves_stored_lists :
    (∀ (tx ty : ℚ) (cp : CartesianPlane),
        (translate_points tx ty cp).lines = cp.lines ∧
        (translate_points tx ty cp).circles = cp.circles) ∧
    (translate_points 5 5 ⟨[((0, 0), (1, 1))], [], []⟩).lines ≠ [((5, 5), (6, 6))] := by
  refine ⟨fun tx ty cp => ⟨rfl, rfl⟩, ?_⟩
  norm_num [translate_points, Transformation2d.translate, Prod.ext_iff]

/-- C5: a segment whose two initial outcodes share a violated half-plane
(bitwise AND nonzero) is rejected by `clipping_cohen_sutherland`. -/
theorem cohen_trivial_reject (fuel : ℕ)
    (x_initial y_initial x_final y_final x_min y_min x_max y_max : ℚ)
    (hfuel : 0 < fuel)
    (hand : region_code x_initial y_initial x_min x_max y_min y_max &&&
            region_code x_final y_final x_min x_max y_min y_max ≠ 0) :
    clipping_cohen_sutherland fuel x_initial y_initial x_final y_final
      x_min y_min x_max y_max = .ok .rejected := by
  obtain ⟨f, rfl⟩ : ∃ f, fuel = f + 1 := ⟨fuel - 1, by omega⟩
  simp [clipping_cohen_sutherland, cohenLoop, hand]

/-- C5 witness: the concrete line (10,0)-(20,0) against window (-5,-5)-(5,5)
has both outcodes RIGHT, so it is rejected. -/
theorem cohen_trivial_reject_witness :
    clipping_cohen_sutherland 1 10 0 20 0 (-5) (-5) 5 5 = .ok .rejected := by
  apply cohen_trivial_reject 1 10 0 20 0 (-5) (-5) 5 5 (by norm_num)
  norm_num [region_code, LEFT, RIGHT, BOTTOM, TOP, INSIDE, natBitFacts]

/-- C7 counterexample: with the invalid axis token "Z", `reflect_line` and
`reflect_circle` fall off the end of the `if`/`elif` chain and return
`None` — NOT the unchanged input primitive. -/
theorem reflect_invalid_axis_returns_none_counterexample :
    reflect_line ((0, 0), (1, 1)) "Z" (0, 0) = none ∧
    reflect_line ((0, 0), (1, 1)) "Z" (0, 0) ≠ some ((0, 0), (1, 1)) ∧
    reflect_circle ((2, 3), 4) "Z" (0, 0) = none ∧
    reflect_circle ((2, 3), 4) "Z" (0, 0) ≠ some ((2, 3), 4) := by
  norm_num [reflect_line, reflect_circle, show ("Z" : String) ≠ "X" from by decide,
    show ("Z" : String) ≠ "Y" from by decide, show ("Z" : String) ≠ "XY" from by decide]
  exact ⟨by simp, by simp⟩

/-- C7 amended: for every axis token outside {X, Y, XY}, `reflect_line` and
`reflect_circle` return `none` (Python `None`), not the unchanged
primitive. -/
theorem reflect_invalid_axis_returns_none
    (line : (ℚ × ℚ) × (ℚ × ℚ)) (circle : (ℚ × ℚ) × ℚ) (origin : ℚ × ℚ) (axis : String)
    (hX : axis ≠ "X") (hY : axis ≠ "Y") (hXY : axis ≠ "XY") :
    reflect_line line axis origin = none ∧ reflect_circle circle axis origin = none := by
  constructor <;> simp [reflect_line, reflect_circle, hX, hY, hXY]

/-- C7 witness: instantiation of the amended claim at axis "Z". -/
theorem reflect_invalid_axis_returns_none_witness :
    reflect_line ((0, 0), (2, 2)) "Z" (10, 10) = none ∧
    reflect_circle ((0, 0), 3) "Z" (10, 10) = none :=
  reflect_invalid_axis_returns_none ((0, 0), (2, 2)) ((0, 0), 3) (10, 10) "Z"
    (by decide) (by decide) (by decide)

/-- C8 counterexample: `rotate` rounds the start point as well, so for a
line with the fractional start point (1/4, 0) the returned start point is
(0, 0), not the original start point. -/
theorem rotate_moves_fractional_start_counterexample :
    rotate ((1/4, 0), (1, 0)) 1 0 = ((0, 0), (1, 0)) ∧
    ¬(((0 : ℤ) : ℚ) = 1/4) := by
  constructor
  · norm_num [rotate, pyRound]
  · norm_num

/-- C8 amended: `rotate` keeps the start point fixed up to Python's
round-to-nearest-integer; in particular whenever the start coordinates are
integers the returned start point equals the input start point exactly, and
only the end point is moved by the rotation (`c` and `s` are the cosine and
sine the source computes from the angle). -/
theorem rotate_fixes_integer_start (a b : ℤ) (p : ℚ × ℚ) (c s : ℚ) :
    (rotate ((a, b), p) c s).1 = (a, b) := by
  simp [rotate, pyRound_intCast]

theorem circleLoop_isOk (xc yc : ℚ) :
    ∀ (fuel : ℕ) (x y p : ℚ) (iters : ℕ) (acc : List (ℚ × ℚ)),
      (⌈y - x⌉).toNat < fuel →
      ∃ out, circleLoop xc yc fuel x y p iters acc = .ok out := by
  intro fuel
  induction fuel with
  | zero => intro x y p iters acc h; omega
  | succ f ih =>
    intro x y p iters acc h
    rw [circleLoop]
    split
    · next hxy =>
      have hceil : 0 < ⌈y - x⌉ := Int.ceil_pos.mpr (by linarith)
      split
      · apply ih
        have h1 : (⌈y - (x + 1)⌉ : ℤ) = ⌈y - x⌉ - 1 := by
          rw [show y - (x + 1) = (y - x) - 1 by ring, Int.ceil_sub_one]
        omega
      · apply ih
        have h1 : (⌈y - 1 - (x + 1)⌉ : ℤ) ≤ ⌈y - x⌉ - 1 := by
          rw [show y - 1 - (x + 1) = (y - x) - 1 - 1 by ring, Int.ceil_sub_one, Int.ceil_sub_one]
          omega
        omega
    · exact ⟨_, rfl⟩

/-- C9: with fuel exceeding `⌈r⌉` the Bresenham circle loop always completes
for `r ≥ 0`; for `r = 0` it performs zero iterations and emits only the
initial octant plot, whose eight mirrored pixels all coincide with the
center; for `r = 1` it performs exactly one iteration. -/
theorem circle_terminates_and_iteration_counts (xc yc r : ℚ) (fuel : ℕ)
    (hr : 0 ≤ r) (hfuel : (⌈r⌉).toNat < fuel) :
    (∃ out, draw_Bresenham_circle fuel xc yc r = .ok out) ∧
    (r = 0 → draw_Bresenham_circle fuel xc yc r = .ok (0, List.replicate 8 (xc, yc))) ∧
    (r = 1 → draw_Bresenham_circle fuel xc yc r =
      .ok (1, plot_circumference_points xc 0 yc 1 ++ plot_circumference_points xc 1 yc 0)) := by
  refine ⟨?_, ?_, ?_⟩
  · unfold draw_Bresenham_circle
    apply circleLoop_isOk
    simpa using hfuel
  · rintro rfl
    obtain ⟨f, rfl⟩ : ∃ f, fuel = f + 1 := ⟨fuel - 1, by omega⟩
    norm_num [draw_Bresenham_circle, circleLoop, plot_circumference_points, List.replicate]
  · rintro rfl
    have h1 : (⌈(1 : ℚ)⌉).toNat = 1 := by norm_num
    obtain ⟨f, rfl⟩ : ∃ f, fuel = f + 2 := ⟨fuel - 2, by omega⟩
    norm_num [draw_Bresenham_circle, circleLoop, plot_circumference_points]

/-- C9 witness: the instantiation at center (0,0), radius 1, fuel 2. -/
theorem circle_terminates_witness :
    (∃ out, draw_Bresenham_circle 2 0 0 1 = .ok out) ∧
    ((1 : ℚ) = 0 → draw_Bresenham_circle 2 0 0 1 = .ok (0, List.replicate 8 (0, 0))) ∧
    ((1 : ℚ) = 1 → draw_Bresenham_circle 2 0 0 1 =
      .ok (1, plot_circumference_points 0 0 0 1 ++ plot_circumference_points 0 1 0 0)) :=
  circle_terminates_and_iteration_counts 0 0 1 2 (by norm_num) (by norm_num)

theorem region_split (x y xm xM ym yM : ℚ) :
    region_code x y xm xM ym yM =
      (if x < xm then 1 else if x > xM then 2 else 0) +
      (if y < ym then 4 else if y > yM then 8 else 0) := by
  unfold region_code LEFT RIGHT BOTTOM TOP INSIDE
  split_ifs <;> rfl

theorem xPart_mem (x xm xM : ℚ) :
    (if x < xm then (1 : ℕ) else if x > xM then 2 else 0) = 0 ∨
    (if x < xm then (1 : ℕ) else if x > xM then 2 else 0) = 1 ∨
    (if x < xm then (1 : ℕ) else if x > xM then 2 else 0) = 2 := by
  split_ifs <;> simp

theorem yPart_mem (y ym yM : ℚ) :
    (if y < ym then (4 : ℕ) else if y > yM then 8 else 0) = 0 ∨
    (if y < ym then (4 : ℕ) else if y > yM then 8 else 0) = 4 ∨
    (if y < ym then (4 : ℕ) else if y > yM then 8 else 0) = 8 := by
  split_ifs <;> simp

theorem and8_forces (a b : ℕ) (ha : a = 0 ∨ a = 1 ∨ a = 2) (hb : b = 0 ∨ b = 4 ∨ b = 8) :
    (a + b) &&& 8 ≠ 0 → b = 8 := by
  rcases ha with rfl | rfl | rfl <;> rcases hb with rfl | rfl | rfl <;> decide

theorem and8_shared (a a' : ℕ) (ha : a = 0 ∨ a = 1 ∨ a = 2) (ha' : a' = 0 ∨ a' = 1 ∨ a' = 2) :
    (a + 8) &&& (a' + 8) ≠ 0 := by
  rcases ha with rfl | rfl | rfl <;> rcases ha' with rfl | rfl | rfl <;> decide

theorem and4_forces (a b : ℕ) (ha : a = 0 ∨ a = 1 ∨ a = 2) (hb : b = 0 ∨ b = 4 ∨ b = 8) :
    (a + b) &&& 4 ≠ 0 → b = 4 := by
  rcases ha with rfl | rfl | rfl <;> rcases hb with rfl | rfl | rfl <;> decide

theorem and4_shared (a a' : ℕ) (ha : a = 0 ∨ a = 1 ∨ a = 2) (ha' : a' = 0 ∨ a' = 1 ∨ a' = 2) :
    (a + 4) &&& (a' + 4) ≠ 0 := by
  rcases ha with rfl | rfl | rfl <;> rcases ha' with rfl | rfl | rfl <;> decide

theorem and2_forces (a b : ℕ) (ha : a = 0 ∨ a = 1 ∨ a = 2) (hb : b = 0 ∨ b = 4 ∨ b = 8) :
    (a + b) &&& 2 ≠ 0 → a = 2 := by
  rcases ha with rfl | rfl | rfl <;> rcases hb with rfl | rfl | rfl <;> decide

theorem and2_shared (b b' : ℕ) (hb : b = 0 ∨ b = 4 ∨ b = 8) (hb' : b' = 0 ∨ b' = 4 ∨ b' = 8) :
    (2 + b) &&& (2 + b') ≠ 0 := by
  rcases hb with rfl | rfl | rfl <;> rcases hb' with rfl | rfl | rfl <;> decide

theorem and1_forces (a b : ℕ) (ha : a = 0 ∨ a = 1 ∨ a = 2) (hb : b = 0 ∨ b = 4 ∨ b = 8) :
    (a + b) &&& 1 ≠ 0 → a = 1 := by
  rcases ha with rfl | rfl | rfl <;> rcases hb with rfl | rfl | rfl <;> decide

theorem and1_shared (b b' : ℕ) (hb : b = 0 ∨ b = 4 ∨ b = 8) (hb' : b' = 0 ∨ b' = 4 ∨ b' = 8) :
    (1 + b) &&& (1 + b') ≠ 0 := by
  rcases hb with rfl | rfl | rfl <;> rcases hb' with rfl | rfl | rfl <;> decide

theorem cohen_top_denom (xi yi xf yf xm xM ym yM : ℚ) (co : ℕ)
    (hco : co = region_code xi yi xm xM ym yM ∨ co = region_code xf yf xm xM ym yM)
    (hAnd : region_code xi yi xm xM ym yM &&& region_code xf yf xm xM ym yM = 0)
    (h8 : co &&& TOP ≠ 0) : yf - yi ≠ 0 := by
  unfold TOP at h8
  intro h0
  have hy : yf = yi := by linarith [sub_eq_zero.mp h0]
  rw [region_split, region_split, hy] at hAnd
  rcases hco with rfl | rfl <;>
    rw [region_split] at h8 <;>
    [skip; rw [hy] at h8] <;>
    · have h := and8_forces _ _ (xPart_mem _ _ _) (yPart_mem _ _ _) h8
      rw [h] at hAnd
      exact and8_shared _ _ (xPart_mem _ _ _) (xPart_mem _ _ _) hAnd

theorem cohen_bottom_denom (xi yi xf yf xm xM ym yM : ℚ) (co : ℕ)
    (hco : co = region_code xi yi xm xM ym yM ∨ co = region_code xf yf xm xM ym yM)
    (hAnd : region_code xi yi xm xM ym yM &&& region_code xf yf xm xM ym yM = 0)
    (h4 : co &&& BOTTOM ≠ 0) : yf - yi ≠ 0 := by
  unfold BOTTOM at h4
  intro h0
  have hy : yf = yi := by linarith [sub_eq_zero.mp h0]
  rw [region_split, region_split, hy] at hAnd
  rcases hco with rfl | rfl <;>
    rw [region_split] at h4 <;>
    [skip; rw [hy] at h4] <;>
    · have h := and4_forces _ _ (xPart_mem _ _ _) (yPart_mem _ _ _) h4
      rw [h] at hAnd
      exact and4_shared _ _ (xPart_mem _ _ _) (xPart_mem _ _ _) hAnd

theorem cohen_right_denom (xi yi xf yf xm xM ym yM : ℚ) (co : ℕ)
    (hco : co = region_code xi yi xm xM ym yM ∨ co = region_code xf yf xm xM ym yM)
    (hAnd : region_code xi yi xm xM ym yM &&& region_code xf yf xm xM ym yM = 0)
    (h2 : co &&& RIGHT ≠ 0) : xf - xi ≠ 0 := by
  unfold RIGHT at h2
  intro h0
  have hx : xf = xi := by linarith [sub_eq_zero.mp h0]
  rw [region_split, region_split, hx] at hAnd
  rcases hco with rfl | rfl <;>
    rw [region_split] at h2 <;>
    [skip; rw [hx] at h2] <;>
    · have h := and2_forces _ _ (xPart_mem _ _ _) (yPart_mem _ _ _) h2
      rw [h] at hAnd
      exact and2_shared _ _ (yPart_mem _ _ _) (yPart_mem _ _ _) hAnd

theorem cohen_left_denom (xi yi xf yf xm xM ym yM : ℚ) (co : ℕ)
    (hco : co = region_code xi yi xm xM ym yM ∨ co = region_code xf yf xm xM ym yM)
    (hAnd : region_code xi yi xm xM ym yM &&& region_code xf yf xm xM ym yM = 0)
    (h1 : co &&& LEFT ≠ 0) : xf - xi ≠ 0 := by
  unfold LEFT at h1
  intro h0
  have hx : xf = xi := by linarith [sub_eq_zero.mp h0]
  rw [region_split, region_split, hx] at hAnd
  rcases hco with rfl | rfl <;>
    rw [region_split] at h1 <;>
    [skip; rw [hx] at h1] <;>
    · have h := and1_forces _ _ (xPart_mem _ _ _) (yPart_mem _ _ _) h1
      rw [h] at hAnd
      exact and1_shared _ _ (yPart_mem _ _ _) (yPart_mem _ _ _) hAnd

theorem cohenLoop_no_divZero (xm xM ym yM : ℚ) :
    ∀ (fuel : ℕ) (xi yi xf yf : ℚ) (la : Bool),
      cohenLoop xm xM ym yM fuel xi yi xf yf
        (region_code xi yi xm xM ym yM) (region_code xf yf xm xM ym yM) la ≠
      Except.error CohenErr.divZero := by
  intro fuel
  induction fuel with
  | zero => intro xi yi xf yf la; simp [cohenLoop]
  | succ f ih =>
    intro xi yi xf yf la
    simp only [cohenLoop]
    split
    · split <;> simp
    · next h1 =>
      split
      · simp
      · next h2 =>
        push_neg at h1
        obtain ⟨hnb, hAnd⟩ := h1
        split
        · next e heq =>
          intro hc
          injection hc with he
          subst he
          split_ifs at heq
          all_goals first
            | exact Except.noConfusion heq
            | exact absurd ‹yf - yi = 0›
                (cohen_top_denom xi yi xf yf xm xM ym yM (region_code xi yi xm xM ym yM)
                  (Or.inl rfl) hAnd ‹region_code xi yi xm xM ym yM &&& TOP ≠ 0›)
            | exact absurd ‹yf - yi = 0›
                (cohen_top_denom xi yi xf yf xm xM ym yM (region_code xf yf xm xM ym yM)
                  (Or.inr rfl) hAnd ‹region_code xf yf xm xM ym yM &&& TOP ≠ 0›)
            | exact absurd ‹yf - yi = 0›
                (cohen_bottom_denom xi yi xf yf xm xM ym yM (region_code xi yi xm xM ym yM)
                  (Or.inl rfl) hAnd ‹region_code xi yi xm xM ym yM &&& BOTTOM ≠ 0›)
            | exact absurd ‹yf - yi = 0›
                (cohen_bottom_denom xi yi xf yf xm xM ym yM (region_code xf yf xm xM ym yM)
                  (Or.inr rfl) hAnd ‹region_code xf yf xm xM ym yM &&& BOTTOM ≠ 0›)
            | exact absurd ‹xf - xi = 0›
                (cohen_right_denom xi yi xf yf xm xM ym yM (region_code xi yi xm xM ym yM)
                  (Or.inl rfl) hAnd ‹region_code xi yi xm xM ym yM &&& RIGHT ≠ 0›)
            | exact absurd ‹xf - xi = 0›
                (cohen_right_denom xi yi xf yf xm xM ym yM (region_code xf yf xm xM ym yM)
                  (Or.inr rfl) hAnd ‹region_code xf yf xm xM ym yM &&& RIGHT ≠ 0›)
            | exact absurd ‹xf - xi = 0›
                (cohen_left_denom xi yi xf yf xm xM ym yM (region_code xi yi xm xM ym yM)
                  (Or.inl rfl) hAnd ‹region_code xi yi xm xM ym yM &&& LEFT ≠ 0›)
            | exact absurd ‹xf - xi = 0›
                (cohen_left_denom xi yi xf yf xm xM ym yM (region_code xf yf xm xM ym yM)
                  (Or.inr rfl) hAnd ‹region_code xf yf xm xM ym yM &&& LEFT ≠ 0›)
        · next x y heq =>
          split
          · rw [if_pos rfl]
            exact ih x y xf yf _
          · split
            · exact ih x y xf yf _
            · exact ih xi yi x y _

/-- C6: for every input line, window and fuel, `clipping_cohen_sutherland`
never raises a division fault: whenever a TOP/BOTTOM boundary intersection
divides by `y_final - y_initial` (or RIGHT/LEFT by `x_final - x_initial`),
that delta is nonzero at that point of execution, because the endpoint
being clipped strictly violates that boundary while the other endpoint does
not (their outcodes share no bit). -/
theorem cohen_never_division_fault (fuel : ℕ)
    (x_initial y_initial x_final y_final x_min y_min x_max y_max : ℚ) :
    clipping_cohen_sutherland fuel x_initial y_initial x_final y_final
      x_min y_min x_max y_max ≠ .error .divZero :=
  cohenLoop_no_divZero x_min x_max y_min y_max fuel x_initial y_initial x_final y_final false

/-- C6 witness: instantiation at a vertical segment crossing the top
boundary (the case the spec singles out as the division hazard). -/
theorem cohen_never_division_fault_witness :
    clipping_cohen_sutherland 3 2 (-9) 2 9 (-5) (-5) 5 5 ≠ .error .divZero :=
  cohen_never_division_fault 3 2 (-9) 2 9 (-5) (-5) 5 5

theorem region_zero_iff (x y xm xM ym yM : ℚ) :
    region_code x y xm xM ym yM = 0 ↔ (xm ≤ x ∧ x ≤ xM ∧ ym ≤ y ∧ y ≤ yM) := by
  rw [region_split]
  split_ifs <;> constructor <;> intro hh <;>
    first
      | (simp at hh; done)
      | rfl
      | (refine ⟨?_, ?_, ?_, ?_⟩ <;> linarith)
      | (exfalso; obtain ⟨a, b, c, d⟩ := hh; linarith)

theorem cohenLoop_accepted_inside (xm xM ym yM : ℚ) :
    ∀ (fuel : ℕ) (xi yi xf yf : ℚ) (la : Bool) (p q : ℚ × ℚ),
      (la = true → region_code xi yi xm xM ym yM = 0 ∨ region_code xf yf xm xM ym yM = 0) →
      cohenLoop xm xM ym yM fuel xi yi xf yf
        (region_code xi yi xm xM ym yM) (region_code xf yf xm xM ym yM) la =
        Except.ok (ClipOutcome.accepted p q) →
      region_code p.1 p.2 xm xM ym yM = 0 ∧ region_code q.1 q.2 xm xM ym yM = 0 := by
  intro fuel
  induction fuel with
  | zero => intro xi yi xf yf la p q hinv heq; exact absurd heq (by simp [cohenLoop])
  | succ f ih =>
    intro xi yi xf yf la p q hinv
    simp only [cohenLoop]
    split
    · next hacc =>
      split
      · next hla =>
        intro heq
        injection heq with heq'
        injection heq' with hp hq
        subst hp
        subst hq
        rcases hacc with ⟨hz1, hz2⟩ | hand
        · exact ⟨hz1, hz2⟩
        · rcases hinv hla with hz | hz
          · rw [hz, Nat.zero_and] at hand
            exact absurd rfl hand
          · rw [hz, Nat.and_zero] at hand
            exact absurd rfl hand
      · intro heq
        injection heq with heq'
        exact absurd heq' (by simp)
    · next h1 =>
      split
      · intro heq
        injection heq with heq'
        exact absurd heq' (by simp)
      · next h2 =>
        push_neg at h1
        obtain ⟨hnb, hAnd⟩ := h1
        split
        · next e heq2 =>
          intro heq
          exact absurd heq (by simp)
        · next x y heq2 =>
          split
          · next hc1 =>
            rw [if_pos rfl]
            intro heq
            refine ih x y xf yf _ p q ?_ heq
            intro hla'
            split_ifs at hla' with hcond
            · rcases hcond with hin | hin
              · exact Or.inl ((region_zero_iff x y xm xM ym yM).mpr hin)
              · exact Or.inr ((region_zero_iff xf yf xm xM ym yM).mpr hin)
            · rcases hinv hla' with hz | hz
              · exact absurd hz hc1
              · exact Or.inr hz
          · next hc1 =>
            have hc1' : region_code xi yi xm xM ym yM = 0 := by
              by_contra hne
              exact hc1 hne
            split
            · next hceq =>
              intro heq
              exact absurd hceq (by rw [hc1']; exact hnb hc1')
            · intro heq
              refine ih xi yi x y _ p q ?_ heq
              intro hla'
              split_ifs at hla' with hcond
              · rcases hcond with hin | hin
                · exact Or.inl ((region_zero_iff xi yi xm xM ym yM).mpr hin)
                · exact Or.inr ((region_zero_iff x y xm xM ym yM).mpr hin)
              · exact Or.inl hc1'

theorem init_le_foldl_max (l : List ℚ) : ∀ (b : ℚ), b ≤ l.foldl max b := by
  induction l with
  | nil => intro b; simp
  | cons a t ih =>
    intro b
    rw [List.foldl_cons]
    exact le_trans (le_max_left b a) (ih (max b a))

theorem mem_le_foldl_max (l : List ℚ) : ∀ (b a : ℚ), a ∈ l → a ≤ l.foldl max b := by
  induction l with
  | nil => intro b a h; simp at h
  | cons c t ih =>
    intro b a h
    rw [List.foldl_cons]
    rcases List.mem_cons.mp h with rfl | h'
    · exact le_trans (le_max_right b a) (init_le_foldl_max t (max b a))
    · exact ih (max b c) a h'

theorem foldl_min_le_init (l : List ℚ) : ∀ (b : ℚ), l.foldl min b ≤ b := by
  induction l with
  | nil => intro b; simp
  | cons a t ih =>
    intro b
    rw [List.foldl_cons]
    exact le_trans (ih (min b a)) (min_le_left b a)

theorem foldl_min_le_mem (l : List ℚ) : ∀ (b a : ℚ), a ∈ l → l.foldl min b ≤ a := by
  induction l with
  | nil => intro b a h; simp at h
  | cons c t ih =>
    intro b a h
    rw [List.foldl_cons]
    rcases List.mem_cons.mp h with rfl | h'
    · exact le_trans (foldl_min_le_init t (min b a)) (min_le_right b a)
    · exact ih (min b c) a h'

theorem foldl_max_eq_init (l : List ℚ) : ∀ (b : ℚ), (∀ a ∈ l, a ≤ b) → l.foldl max b = b := by
  induction l with
  | nil => intro b _; simp
  | cons c t ih =>
    intro b h
    rw [List.foldl_cons, max_eq_left (h c (List.mem_cons_self c t))]
    exact ih b fun a ha => h a (List.mem_cons_of_mem c ha)

theorem foldl_min_eq_init (l : List ℚ) : ∀ (b : ℚ), (∀ a ∈ l, b ≤ a) → l.foldl min b = b := by
  induction l with
  | nil => intro b _; simp
  | cons c t ih =>
    intro b h
    rw [List.foldl_cons, min_eq_left (h c (List.mem_cons_self c t))]
    exact ih b fun a ha => h a (List.mem_cons_of_mem c ha)

theorem bound_of (pv qv t : ℚ) (h0 : pv = 0 → 0 ≤ qv)
    (hneg : pv < 0 → qv / pv ≤ t) (hpos : 0 < pv → t ≤ qv / pv) : pv * t ≤ qv := by
  rcases lt_trichotomy pv 0 with h | h | h
  · have h1 := hneg h
    have h2 : pv * t ≤ pv * (qv / pv) := mul_le_mul_of_nonpos_left h1 (le_of_lt h)
    have h3 : pv * (qv / pv) = qv := by rw [mul_comm]; exact div_mul_cancel₀ qv (ne_of_lt h)
    linarith
  · rw [h, zero_mul]
    exact h0 h
  · have h1 := hpos h
    have h2 : pv * t ≤ pv * (qv / pv) := mul_le_mul_of_nonneg_left h1 (le_of_lt h)
    have h3 : pv * (qv / pv) = qv := by rw [mul_comm]; exact div_mul_cancel₀ qv (ne_of_gt h)
    linarith

theorem lb_bounds (p1 p3 q1 q2 q3 q4 t : ℚ)
    (h1 : p1 = 0 → 0 ≤ q1) (h2 : p1 = 0 → 0 ≤ q2)
    (h3 : p3 = 0 → 0 ≤ q3) (h4 : p3 = 0 → 0 ≤ q4)
    (ht1 : (lb_negRest p1 p3 q1 q2 q3 q4).foldl max 0 ≤ t)
    (ht2 : t ≤ (lb_posRest p1 p3 q1 q2 q3 q4).foldl min 1) :
    p1 * t ≤ q1 ∧ (-p1) * t ≤ q2 ∧ p3 * t ≤ q3 ∧ (-p3) * t ≤ q4 := by
  have hmemN : ∀ a ∈ lb_negRest p1 p3 q1 q2 q3 q4, a ≤ t := fun a ha =>
    le_trans (mem_le_foldl_max _ 0 a ha) ht1
  have hmemP : ∀ a ∈ lb_posRest p1 p3 q1 q2 q3 q4, t ≤ a := fun a ha =>
    le_trans ht2 (foldl_min_le_mem _ 1 a ha)
  refine ⟨?_, ?_, ?_, ?_⟩
  · apply bound_of p1 q1 t h1
    · intro hp
      apply hmemN
      unfold lb_negRest
      simp [ne_of_lt hp, hp]
    · intro hp
      apply hmemP
      unfold lb_posRest
      simp [ne_of_gt hp, not_lt_of_gt hp]
  · apply bound_of (-p1) q2 t (fun hp => h2 (neg_eq_zero.mp hp))
    · intro hp
      have hp1 : 0 < p1 := by linarith
      apply hmemN
      unfold lb_negRest
      simp [ne_of_gt hp1, not_lt_of_gt hp1]
    · intro hp
      have hp1 : p1 < 0 := by linarith
      apply hmemP
      unfold lb_posRest
      simp [ne_of_lt hp1, hp1]
  · apply bound_of p3 q3 t h3
    · intro hp
      apply hmemN
      unfold lb_negRest
      simp [ne_of_lt hp, hp]
    · intro hp
      apply hmemP
      unfold lb_posRest
      simp [ne_of_gt hp, not_lt_of_gt hp]
  · apply bound_of (-p3) q4 t (fun hp => h4 (neg_eq_zero.mp hp))
    · intro hp
      have hp3 : 0 < p3 := by linarith
      apply hmemN
      unfold lb_negRest
      simp [ne_of_gt hp3, not_lt_of_gt hp3]
    · intro hp
      have hp3 : p3 < 0 := by linarith
      apply hmemP
      unfold lb_posRest
      simp [ne_of_lt hp3, hp3]

theorem liang_accepted_in_window (x1 y1 x2 y2 xmin ymin xmax ymax a b c d : ℚ)
    (heq : clipping_liang_barsky x1 y1 x2 y2 xmin ymin xmax ymax =
      ClipOutcome.accepted (a, b) (c, d)) :
    (xmin ≤ a ∧ a ≤ xmax ∧ ymin ≤ b ∧ b ≤ ymax) ∧
    (xmin ≤ c ∧ c ≤ xmax ∧ ymin ≤ d ∧ d ≤ ymax) := by
  simp only [clipping_liang_barsky] at heq
  split_ifs at heq with hpar hrr
  simp only [ClipOutcome.accepted.injEq, Prod.mk.injEq] at heq
  obtain ⟨⟨ha, hb⟩, hc, hd⟩ := heq
  subst ha
  subst hb
  subst hc
  subst hd
  push_neg at hpar
  obtain ⟨hp1, hp2, hp3, hp4⟩ := hpar
  have hle := not_lt.mp hrr
  obtain ⟨e1, e2, e3, e4⟩ :=
    lb_bounds (-(x2 - x1)) (-(y2 - y1)) (x1 - xmin) (xmax - x1) (y1 - ymin) (ymax - y1)
      ((lb_negRest (-(x2 - x1)) (-(y2 - y1)) (x1 - xmin) (xmax - x1) (y1 - ymin)
        (ymax - y1)).foldl max 0)
      hp1 (fun hp => hp2 (by rw [hp, neg_zero])) hp3 (fun hp => hp4 (by rw [hp, neg_zero]))
      (le_refl _) hle
  obtain ⟨f1, f2, f3, f4⟩ :=
    lb_bounds (-(x2 - x1)) (-(y2 - y1)) (x1 - xmin) (xmax - x1) (y1 - ymin) (ymax - y1)
      ((lb_posRest (-(x2 - x1)) (-(y2 - y1)) (x1 - xmin) (xmax - x1) (y1 - ymin)
        (ymax - y1)).foldl min 1)
      hp1 (fun hp => hp2 (by rw [hp, neg_zero])) hp3 (fun hp => hp4 (by rw [hp, neg_zero]))
      hle (le_refl _)
  refine ⟨⟨by linarith, by linarith, by linarith, by linarith⟩,
          by linarith, by linarith, by linarith, by linarith⟩

/-- C4: whenever a clip call accepts (Cohen-Sutherland with any fuel, or
Liang-Barsky), both returned endpoints lie inside the window, boundary
inclusive, for a normalized window. -/
theorem clip_accepted_endpoints_in_window (fuel : ℕ)
    (x1 y1 x2 y2 xmin ymin xmax ymax : ℚ)
    (hx : xmin ≤ xmax) (hy : ymin ≤ ymax) :
    (∀ a b c d : ℚ,
      clipping_cohen_sutherland fuel x1 y1 x2 y2 xmin ymin xmax ymax =
        Except.ok (ClipOutcome.accepted (a, b) (c, d)) →
      (xmin ≤ a ∧ a ≤ xmax ∧ ymin ≤ b ∧ b ≤ ymax) ∧
      (xmin ≤ c ∧ c ≤ xmax ∧ ymin ≤ d ∧ d ≤ ymax)) ∧
    (∀ a b c d : ℚ,
      clipping_liang_barsky x1 y1 x2 y2 xmin ymin xmax ymax =
        ClipOutcome.accepted (a, b) (c, d) →
      (xmin ≤ a ∧ a ≤ xmax ∧ ymin ≤ b ∧ b ≤ ymax) ∧
      (xmin ≤ c ∧ c ≤ xmax ∧ ymin ≤ d ∧ d ≤ ymax)) := by
  constructor
  · intro a b c d heq
    unfold clipping_cohen_sutherland at heq
    have h := cohenLoop_accepted_inside xmin xmax ymin ymax fuel x1 y1 x2 y2 false
      (a, b) (c, d) (by simp) heq
    exact ⟨(region_zero_iff a b xmin xmax ymin ymax).mp h.1,
           (region_zero_iff c d xmin xmax ymin ymax).mp h.2⟩
  · intro a b c d heq
    exact liang_accepted_in_window x1 y1 x2 y2 xmin ymin xmax ymax a b c d heq

/-- C4 witness: the diagonal line (-10,-10)-(10,10) against window
(-5,-5)-(5,5) is accepted by Cohen-Sutherland as ((-5,-5),(5,5)), and those
endpoints lie in the window. -/
theorem clip_accepted_endpoints_in_window_witness :
    (((-5 : ℚ) ≤ -5 ∧ (-5 : ℚ) ≤ 5 ∧ (-5 : ℚ) ≤ -5 ∧ (-5 : ℚ) ≤ 5) ∧
     ((-5 : ℚ) ≤ 5 ∧ (5 : ℚ) ≤ 5 ∧ (-5 : ℚ) ≤ 5 ∧ (5 : ℚ) ≤ 5)) :=
  (clip_accepted_endpoints_in_window 3 (-10) (-10) 10 10 (-5) (-5) 5 5
    (by norm_num) (by norm_num)).1 (-5) (-5) 5 5
    (by norm_num [clipping_cohen_sutherland, cohenLoop, region_code, LEFT, RIGHT, BOTTOM,
      TOP, INSIDE, natBitFacts])

/-- C10: a segment with both endpoints inside the window (inclusive),
including zero-length segments, is accepted by `clipping_liang_barsky`
with exactly the original endpoints (the entering parameter resolves to 0
and the leaving parameter to 1). -/
theorem liang_inside_identity (x1 y1 x2 y2 xmin ymin xmax ymax : ℚ)
    (h1 : xmin ≤ x1) (h2 : x1 ≤ xmax) (h3 : ymin ≤ y1) (h4 : y1 ≤ ymax)
    (h5 : xmin ≤ x2) (h6 : x2 ≤ xmax) (h7 : ymin ≤ y2) (h8 : y2 ≤ ymax) :
    clipping_liang_barsky x1 y1 x2 y2 xmin ymin xmax ymax =
      ClipOutcome.accepted (x1, y1) (x2, y2) := by
  have hrn1 : (lb_negRest (-(x2 - x1)) (-(y2 - y1)) (x1 - xmin) (xmax - x1) (y1 - ymin)
      (ymax - y1)).foldl max 0 = 0 := by
    apply foldl_max_eq_init
    intro a ha
    unfold lb_negRest at ha
    simp only [List.mem_append] at ha
    rcases ha with ha | ha
    · split_ifs at ha with hne hlt
      · rw [List.mem_singleton] at ha
        subst ha
        exact div_nonpos_iff.mpr (Or.inl ⟨by linarith, by linarith⟩)
      · rw [List.mem_singleton] at ha
        subst ha
        have hgt : 0 < -(x2 - x1) := lt_of_le_of_ne (not_lt.mp hlt) (Ne.symm hne)
        exact div_nonpos_iff.mpr (Or.inl ⟨by linarith, by linarith⟩)
      · simp at ha
    · split_ifs at ha with hne hlt
      · rw [List.mem_singleton] at ha
        subst ha
        exact div_nonpos_iff.mpr (Or.inl ⟨by linarith, by linarith⟩)
      · rw [List.mem_singleton] at ha
        subst ha
        have hgt : 0 < -(y2 - y1) := lt_of_le_of_ne (not_lt.mp hlt) (Ne.symm hne)
        exact div_nonpos_iff.mpr (Or.inl ⟨by linarith, by linarith⟩)
      · simp at ha
  have hrn2 : (lb_posRest (-(x2 - x1)) (-(y2 - y1)) (x1 - xmin) (xmax - x1) (y1 - ymin)
      (ymax - y1)).foldl min 1 = 1 := by
    apply foldl_min_eq_init
    intro a ha
    unfold lb_posRest at ha
    simp only [List.mem_append] at ha
    rcases ha with ha | ha
    · split_ifs at ha with hne hlt
      · rw [List.mem_singleton] at ha
        subst ha
        have hpos : (0:ℚ) < -(-(x2 - x1)) := by linarith
        rw [le_div_iff hpos]
        linarith
      · rw [List.mem_singleton] at ha
        subst ha
        have hpos : (0:ℚ) < -(x2 - x1) := lt_of_le_of_ne (not_lt.mp hlt) (Ne.symm hne)
        rw [le_div_iff hpos]
        linarith
      · simp at ha
    · split_ifs at ha with hne hlt
      · rw [List.mem_singleton] at ha
        subst ha
        have hpos : (0:ℚ) < -(-(y2 - y1)) := by linarith
        rw [le_div_iff hpos]
        linarith
      · rw [List.mem_singleton] at ha
        subst ha
        have hpos : (0:ℚ) < -(y2 - y1) := lt_of_le_of_ne (not_lt.mp hlt) (Ne.symm hne)
        rw [le_div_iff hpos]
        linarith
      · simp at ha
  simp only [clipping_liang_barsky]
  rw [hrn1, hrn2]
  rw [if_neg, if_neg]
  · simp only [ClipOutcome.accepted.injEq, Prod.mk.injEq]
    refine ⟨⟨by ring, by ring⟩, by ring, by ring⟩
  · norm_num
  · intro hcon
    rcases hcon with ⟨hz, hlt⟩ | ⟨hz, hlt⟩ | ⟨hz, hlt⟩ | ⟨hz, hlt⟩ <;> linarith

/-- C10 witness: the fully-inside segment (0,0)-(1,1) in window
(-5,-5)-(5,5) is returned unchanged. -/
theorem liang_inside_identity_witness :
    clipping_liang_barsky 0 0 1 1 (-5) (-5) 5 5 = ClipOutcome.accepted (0, 0) (1, 1) :=
  liang_inside_identity 0 0 1 1 (-5) (-5) 5 5 (by norm_num) (by norm_num) (by norm_num)
    (by norm_num) (by norm_num) (by norm_num) (by norm_num) (by norm_num)

/-- C3 witness: instantiation of the stored-list invariance at a concrete
scene. -/
theorem translate_points_leaves_stored_lists_witness :
    (translate_points 2 3 ⟨[((0, 0), (1, 1))], [((4, 4), 2)], []⟩).lines = [((0, 0), (1, 1))] ∧
    (translate_points 2 3 ⟨[((0, 0), (1, 1))], [((4, 4), 2)], []⟩).circles = [((4, 4), 2)] :=
  translate_points_leaves_stored_lists.1 2 3 ⟨[((0, 0), (1, 1))], [((4, 4), 2)], []⟩
